import Mathlib

/-
Verification of the download-SEC-data program.

This file gives a shallow embedding of the parts of the program that the
claims refer to: the company hash indexes and search functions from
searchSecCompanies.py, the rate limiter and singleton API client from
makeRequest.py, and the fact-row correction table from requestCompanyFacts.py.
Python dicts with string keys are modelled as association lists in insertion
order, Python dict values with possibly missing keys as structures of Option
fields, and fallible code as Except values.
-/

namespace SecData

/-- Python-level exceptions that the embedded code can raise. -/
inductive PyErr where
  | typeError
  | valueError
  | indexError
  deriving DecidableEq

/-- A partial company record as stored in the index buckets of
searchSecCompanies.py: a Python dict that may or may not carry the keys
title, ticker and cik_str.  A missing key is none.  The cik_str values in
the SEC source data are integers. -/
structure SRec where
  title : Option String
  ticker : Option String
  cik_str : Option Nat
  deriving DecidableEq

/-- A company hash index: a Python dict from string keys to lists of partial
records, modelled as an association list in insertion order. -/
abbrev Index := List (String × List SRec)

/-- A full company record of the SEC company list: the values of the
companyData dict handed to createHashIndexes, each holding cik_str, ticker
and title. -/
structure Company where
  cik_str : Nat
  ticker : String
  title : String
  deriving DecidableEq

/-- Python str.lower, modelled characterwise (the data is ASCII). -/
def pyLower (s : String) : String :=
  String.mk (s.data.map Char.toLower)

/-- Python str.isdigit on the ASCII fragment: nonempty and all digits. -/
def pyIsDigit (s : String) : Bool :=
  !s.isEmpty && s.data.all Char.isDigit

/-- Python str.isalpha on the ASCII fragment: nonempty and all letters. -/
def pyIsAlpha (s : String) : Bool :=
  !s.isEmpty && s.data.all Char.isAlpha

/-- Python str.isalnum on the ASCII fragment: nonempty and all letters or
digits. -/
def pyIsAlnum (s : String) : Bool :=
  !s.isEmpty && s.data.all Char.isAlphanum

/-- Python substring test needle in hay on character lists. -/
def containsSub : List Char → List Char → Bool
  | [], needle => needle.isEmpty
  | c :: t, needle => needle.isPrefixOf (c :: t) || containsSub t needle

/-- Python dict.get key None on an association-list index: the bucket stored
under the key, if present. -/
def dictGet (idx : Index) (key : String) : Option (List SRec) :=
  match idx with
  | [] => none
  | (k, es) :: rest => if k = key then some es else dictGet rest key

/-- Python idx.setdefault key [] .append entry: append the entry to the bucket
under the key, creating the bucket at the end of the dict when the key is
new.  Models the index updates of createHashIndexes,
searchSecCompanies.py lines 124 to 135. -/
def setdefaultAppend (idx : Index) (key : String) (entry : SRec) : Index :=
  match idx with
  | [] => [(key, [entry])]
  | (k, es) :: rest =>
    if k = key then (k, es ++ [entry]) :: rest
    else (k, es) :: setdefaultAppend rest key entry

/-- The bucket of an index under a key, the empty list when the key is
absent. -/
def bucketOf (idx : Index) (key : String) : List SRec :=
  (dictGet idx key).getD []

/-- Total number of partial-record entries of an index, summed over its
buckets. -/
def sumLen (idx : Index) : Nat :=
  (idx.map fun kv => kv.2.length).sum

/-- The loop of createHashIndexes, searchSecCompanies.py lines 124 to 135:
for each company, append a partial record to the ticker index under the
lowercased ticker, to the title index under the lowercased title, and to the
CIK index under str of cik_str. -/
def createHashIndexesAux (tickerIndex titleIndex cikIndex : Index) :
    List Company → Index × Index × Index
  | [] => (tickerIndex, titleIndex, cikIndex)
  | company :: rest =>
    createHashIndexesAux
      (setdefaultAppend tickerIndex (pyLower company.ticker)
        ⟨some company.title, none, some company.cik_str⟩)
      (setdefaultAppend titleIndex (pyLower company.title)
        ⟨none, some company.ticker, some company.cik_str⟩)
      (setdefaultAppend cikIndex (toString company.cik_str)
        ⟨some company.title, some company.ticker, none⟩)
      rest

/-- createHashIndexes, searchSecCompanies.py lines 98 to 137: build the
ticker, title and CIK indexes from the company data, starting from three
empty dicts. -/
def createHashIndexes (companyData : List Company) : Index × Index × Index :=
  createHashIndexesAux [] [] [] companyData

/-- The per-bucket match test of searchByTitle, searchSecCompanies.py
lines 343 to 351: with substring matching on, the target must occur inside
the lowercased bucket title; otherwise the target must equal it. -/
def titleMatches (substr : Bool) (titleTarget : String) (title : String) : Bool :=
  if substr then containsSub (pyLower title).data titleTarget.data
  else titleTarget == pyLower title

/-- searchByTitle, searchSecCompanies.py lines 321 to 353 (the second,
effective definition): scan every bucket of the title index, extend the
result with each bucket whose title matches, and return None when the result
list stays empty. -/
def searchByTitle (titleIndex : Index) (titleTarget : String) (substr : Bool) :
    Option (List SRec) :=
  let result := titleIndex.foldl
    (fun acc kv => if titleMatches substr titleTarget kv.1 then acc ++ kv.2 else acc) []
  if result = [] then none else some result

/-- searchByTicker, searchSecCompanies.py lines 163 to 179: exact dict get
under the lowercased ticker. -/
def searchByTicker (tickerIndex : Index) (tickerTarget : String) : Option (List SRec) :=
  dictGet tickerIndex (pyLower tickerTarget)

/-- searchByCik, searchSecCompanies.py lines 181 to 197: exact dict get
under the CIK string, with no normalisation. -/
def searchByCik (cikIndex : Index) (cikTarget : String) : Option (List SRec) :=
  dictGet cikIndex cikTarget

/-- Python falsiness of a search result: None and the empty list are falsy. -/
def isFalsy : Option (List SRec) → Bool
  | none => true
  | some l => l.isEmpty

/-- The classification and lookup part of searchCompany,
searchSecCompanies.py lines 229 to 249: all-digit input is looked up in the
CIK index, alphanumeric input in the ticker index with a fallback to a
substring title search when the ticker lookup is falsy, and any other input
goes to a substring title search.  The surrounding prompt and result
handling are interactive and modelled separately. -/
def searchCompanyResult (tickerIndex titleIndex cikIndex : Index)
    (userInput : String) : Option (List SRec) :=
  if pyIsDigit userInput then
    searchByCik cikIndex userInput
  else if pyIsAlpha userInput || pyIsAlnum userInput then
    let result := searchByTicker tickerIndex (pyLower userInput)
    if isFalsy result then searchByTitle titleIndex (pyLower userInput) true else result
  else
    searchByTitle titleIndex (pyLower userInput) true

/-- Python str applied to the value of company.get with default the string
N slash A: the decimal rendering of a stored integer CIK, and the default
string itself when the key is missing. -/
def cikToStr : Option Nat → String
  | some n => toString n
  | none => "N/A"

/-- The shape of a parseSearchResults return value: a single
title-ticker-cik triple for a one-record result, or three aligned tuples for
a several-record result. -/
inductive ParseOut where
  | single : String → String → String → ParseOut
  | multi : List String → List String → List String → ParseOut
  deriving DecidableEq

/-- parseSearchResults, searchSecCompanies.py lines 355 to 452.  A falsy
input returns None.  Otherwise the loop over the records appends to the
three lists only in its three if and elif branches, which fire when the title,
the ticker, or the cik is missing (the get default makes a missing field
compare equal to the default string); a record matching no branch appends
nothing.  A one-record input then reads index zero of each list, raising
IndexError when the lists are empty. -/
def parseSearchResults (searchResults : Option (List SRec)) (userInput : String) :
    Except PyErr (Option ParseOut) :=
  match searchResults with
  | none => Except.ok none
  | some [] => Except.ok none
  | some results =>
    let out := results.foldl
      (fun (acc : List String × List String × List String) company =>
        let title := company.title.getD "N/A"
        let ticker := company.ticker.getD "N/A"
        let cik := company.cik_str
        if title = "N/A" then
          (acc.1 ++ [userInput], acc.2.1 ++ [ticker], acc.2.2 ++ [cikToStr cik])
        else if ticker = "N/A" then
          (acc.1 ++ [title], acc.2.1 ++ [userInput], acc.2.2 ++ [cikToStr cik])
        else if cik = none then
          (acc.1 ++ [title], acc.2.1 ++ [ticker], acc.2.2 ++ [userInput])
        else acc)
      ([], [], [])
    if results.length = 1 then
      match out.1, out.2.1, out.2.2 with
      | t :: _, tk :: _, c :: _ => Except.ok (some (ParseOut.single t tk c))
      | _, _, _ => Except.error PyErr.indexError
    else
      Except.ok (some (ParseOut.multi out.1 out.2.1 out.2.2))

/-- The selection step of handleSearchResults for a multi-candidate result,
searchSecCompanies.py lines 296 to 319.  The selection argument is the user
input parsed by int, none when int raised ValueError.  A selection between 1
and the list length returns the chosen triple.  Both failure paths reach the
recursive retry call on line 313 or 319, which passes two arguments to the
five-parameter function handleSearchResults and therefore raises TypeError;
the surrounding except clause catches only ValueError, so the TypeError
escapes to the caller. -/
def handleSearchResultsSelect (titles tickers ciks : List String)
    (selection : Option Int) : Except PyErr (String × String × String) :=
  match selection with
  | none => Except.error PyErr.typeError
  | some n =>
    if 1 ≤ n ∧ n ≤ (titles.length : Int) then
      Except.ok (titles.getD (n.toNat - 1) "", tickers.getD (n.toNat - 1) "",
        ciks.getD (n.toNat - 1) "")
    else Except.error PyErr.typeError

/-- The state of a RateLimiter, makeRequest.py lines 26 to 41: the two
construction parameters together with the mutable call counter and window
start time.  Times are rationals standing for the real-valued clock. -/
structure RateLimiter where
  maxCalls : Nat
  period : ℚ
  calls : Nat
  startTime : ℚ
  deriving DecidableEq

/-- RateLimiter construction, makeRequest.py lines 30 to 41: the counter
starts at zero and the window starts at the current time. -/
def RateLimiter.init (maxCalls : Nat) (period : ℚ) (now : ℚ) : RateLimiter :=
  ⟨maxCalls, period, 0, now⟩

/-- One iteration of the while loop of RateLimiter.wait, makeRequest.py
lines 43 to 60, at a given current time: reset the counter and window when
the elapsed time strictly exceeds the period, then complete the call when
the counter is below the maximum, and otherwise sleep (none). -/
def RateLimiter.waitStep (s : RateLimiter) (currentTime : ℚ) : Option RateLimiter :=
  let elapsed := currentTime - s.startTime
  let s1 := if s.period < elapsed then { s with calls := 0, startTime := currentTime } else s
  if s1.calls < s1.maxCalls then some { s1 with calls := s1.calls + 1 } else none

/-- Run a schedule of wait-loop iterations at the given poll times, in
order, and count the calls that complete; an iteration that would sleep
leaves the state unchanged. -/
def RateLimiter.runAcquires : RateLimiter → List ℚ → RateLimiter × Nat
  | s, [] => (s, 0)
  | s, t :: ts =>
    match s.waitStep t with
    | some s1 =>
      let r := RateLimiter.runAcquires s1 ts
      (r.1, r.2 + 1)
    | none => RateLimiter.runAcquires s ts

/-- The EdgarClient instance state, makeRequest.py lines 63 to 78: the only
per-instance field is the rate limiter stored at first construction. -/
structure EdgarClient where
  rateLimiter : Option RateLimiter
  deriving DecidableEq

/-- EdgarClient construction, makeRequest.py lines 70 to 78, with the class
attribute holding the singleton passed and returned explicitly: when no
instance exists yet a new one is created and its rateLimiter field is set
from the argument; otherwise the stored instance is returned unchanged and
the argument is ignored. -/
def EdgarClient.new (instanceVar : Option EdgarClient)
    (rateLimiter : Option RateLimiter) : EdgarClient × Option EdgarClient :=
  match instanceVar with
  | none =>
    let inst := EdgarClient.mk rateLimiter
    (inst, some inst)
  | some inst => (inst, some inst)

/-- An HTTP response as seen by get_data: a status code and the value that
response.json would parse from the body. -/
structure HttpResponse (α : Type) where
  status_code : Nat
  jsonBody : α

/-- EdgarClient.get_data, makeRequest.py lines 80 to 96, after the rate
limiter wait (which only affects timing): return None when the status code
differs from 200, and the parsed JSON body otherwise. -/
def EdgarClient.get_data (client : EdgarClient) (response : HttpResponse α) :
    Option α :=
  if response.status_code ≠ 200 then none else some response.jsonBody

/-- A row of the concept DataFrame of requestCompanyFacts.py, with the
columns end, val, accn, fy, fp, form, filed and frame.  The fp and frame
cells may be missing (NaN, modelled none); fy is kept as its rendered
string, since the code only ever interpolates it into a format string. -/
structure FactRow where
  end_ : String
  val : String
  accn : String
  fy : String
  fp : Option String
  form : String
  filed : String
  frame : Option String
  deriving DecidableEq

/-- Python slicing s from a to b on a string. -/
def pySlice (s : String) (a b : Nat) : String :=
  String.mk ((s.data.drop a).take (b - a))

/-- correctRow, requestCompanyFacts.py lines 170 to 188: the nested
if and elif chain correcting the fp and frame cells of one row. -/
def correctRow (row : FactRow) : FactRow :=
  if (row.fp = none ∨ row.fp = some "FY") ∧ row.frame = none then
    { row with fp := some "N/a", frame := some ("CY" ++ row.fy) }
  else if row.frame = none ∧ row.fp ≠ none ∧ row.fp ≠ some "FY" then
    { row with frame := some ("CY" ++ row.fy ++ row.fp.getD "" ++ "I") }
  else if (row.fp = none ∨ row.fp = some "FY") ∧ row.frame ≠ none then
    if (row.frame.getD "").length = 6 then
      { row with fp := some "N/A" }
    else if 9 ≤ (row.frame.getD "").length then
      { row with fp := some (pySlice (row.frame.getD "") 6 8) }
    else row
  else row

/-- updateFyAndFrameCols, requestCompanyFacts.py lines 160 to 192: apply
correctRow to every row of the frame. -/
def updateFyAndFrameCols (conceptDataFrame : List FactRow) : List FactRow :=
  conceptDataFrame.map correctRow

/-- The four-case rule table of the specification for updateFyAndFrameCols,
written flat as the spec states it, with the case-one sentinel as the code
actually produces it: fp empty or FY and frame empty gives the lowercase
sentinel and frame CY fy; frame empty with a valid non-FY fp gives frame
CY fy fp I; fp empty or FY with a length-6 frame gives the uppercase
sentinel; fp empty or FY with a frame of length at least 9 copies
characters 6 to 8 of the frame into fp; any other row is unmodified. -/
def specCorrectRow (row : FactRow) : FactRow :=
  if (row.fp = none ∨ row.fp = some "FY") ∧ row.frame = none then
    { row with fp := some "N/a", frame := some ("CY" ++ row.fy) }
  else if row.frame = none ∧ row.fp ≠ none ∧ row.fp ≠ some "FY" then
    { row with frame := some ("CY" ++ row.fy ++ row.fp.getD "" ++ "I") }
  else if (row.fp = none ∨ row.fp = some "FY") ∧ row.frame ≠ none ∧
      (row.frame.getD "").length = 6 then
    { row with fp := some "N/A" }
  else if (row.fp = none ∨ row.fp = some "FY") ∧ row.frame ≠ none ∧
      9 ≤ (row.frame.getD "").length then
    { row with fp := some (pySlice (row.frame.getD "") 6 8) }
  else row

theorem bucketOf_setdefaultAppend (idx : Index) (key k : String) (e : SRec) :
    bucketOf (setdefaultAppend idx key e) k =
      bucketOf idx k ++ if key = k then [e] else [] := by
  induction idx with
  | nil =>
    by_cases h : key = k <;> simp [setdefaultAppend, bucketOf, dictGet, h]
  | cons hd tl ih =>
    obtain ⟨k1, es⟩ := hd
    by_cases h1 : k1 = key
    · subst h1
      by_cases h2 : k1 = k
      · subst h2
        simp [setdefaultAppend, bucketOf, dictGet]
      · simp [setdefaultAppend, bucketOf, dictGet, h2]
    · by_cases h2 : k1 = k
      · subst h2
        have h3 : ¬ key = k1 := fun hh => h1 hh.symm
        simp [setdefaultAppend, bucketOf, dictGet, h1, h3]
      · have ih1 := ih
        simp only [bucketOf] at ih1
        simp [setdefaultAppend, bucketOf, dictGet, h1, h2, ih1]

theorem sumLen_setdefaultAppend (idx : Index) (key : String) (e : SRec) :
    sumLen (setdefaultAppend idx key e) = sumLen idx + 1 := by
  induction idx with
  | nil => simp [setdefaultAppend, sumLen]
  | cons hd tl ih =>
    obtain ⟨k1, es⟩ := hd
    by_cases h : k1 = key <;>
      simp [setdefaultAppend, sumLen, h] <;>
      simp [sumLen] at ih <;> omega

theorem dictGet_setdefaultAppend_eq_none (idx : Index) (key k : String) (e : SRec) :
    dictGet (setdefaultAppend idx key e) k = none ↔
      dictGet idx k = none ∧ key ≠ k := by
  induction idx with
  | nil =>
    by_cases h : key = k <;> simp [setdefaultAppend, dictGet, h]
  | cons hd tl ih =>
    obtain ⟨k1, es⟩ := hd
    by_cases h1 : k1 = key
    · subst h1
      by_cases h2 : k1 = k
      · subst h2
        simp [setdefaultAppend, dictGet]
      · simp [setdefaultAppend, dictGet, h2, fun hh => h2 hh]
    · by_cases h2 : k1 = k
      · subst h2
        simp [setdefaultAppend, dictGet, h1]
      · simp [setdefaultAppend, dictGet, h1, h2, ih]

theorem createHashIndexesAux_spec :
    ∀ (data : List Company) (tI tiI cI : Index),
      sumLen (createHashIndexesAux tI tiI cI data).1 = sumLen tI + data.length
      ∧ sumLen (createHashIndexesAux tI tiI cI data).2.1 = sumLen tiI + data.length
      ∧ sumLen (createHashIndexesAux tI tiI cI data).2.2 = sumLen cI + data.length
      ∧ (∀ k, bucketOf (createHashIndexesAux tI tiI cI data).1 k =
          bucketOf tI k ++
            (data.filter fun c => pyLower c.ticker == k).map
              (fun c => ⟨some c.title, none, some c.cik_str⟩))
      ∧ (∀ k, bucketOf (createHashIndexesAux tI tiI cI data).2.1 k =
          bucketOf tiI k ++
            (data.filter fun c => pyLower c.title == k).map
              (fun c => ⟨none, some c.ticker, some c.cik_str⟩))
      ∧ (∀ k, bucketOf (createHashIndexesAux tI tiI cI data).2.2 k =
          bucketOf cI k ++
            (data.filter fun c => toString c.cik_str == k).map
              (fun c => ⟨some c.title, some c.ticker, none⟩)) := by
  intro data
  induction data with
  | nil => intro tI tiI cI; simp [createHashIndexesAux]
  | cons c rest ih =>
    intro tI tiI cI
    simp only [createHashIndexesAux]
    obtain ⟨h1, h2, h3, h4, h5, h6⟩ :=
      ih (setdefaultAppend tI (pyLower c.ticker) ⟨some c.title, none, some c.cik_str⟩)
        (setdefaultAppend tiI (pyLower c.title) ⟨none, some c.ticker, some c.cik_str⟩)
        (setdefaultAppend cI (toString c.cik_str) ⟨some c.title, some c.ticker, none⟩)
    refine ⟨?_, ?_, ?_, ?_, ?_, ?_⟩
    · rw [h1, sumLen_setdefaultAppend]; simp; omega
    · rw [h2, sumLen_setdefaultAppend]; simp; omega
    · rw [h3, sumLen_setdefaultAppend]; simp; omega
    · intro k
      rw [h4 k, bucketOf_setdefaultAppend]
      by_cases hk : pyLower c.ticker = k <;>
        simp [List.filter_cons, hk, List.append_assoc]
    · intro k
      rw [h5 k, bucketOf_setdefaultAppend]
      by_cases hk : pyLower c.title = k <;>
        simp [List.filter_cons, hk, List.append_assoc]
    · intro k
      rw [h6 k, bucketOf_setdefaultAppend]
      by_cases hk : toString c.cik_str = k <;>
        simp [List.filter_cons, hk, List.append_assoc]

/-- C4: for every company mapping with N records, each of the three indexes
built by createHashIndexes holds exactly N partial-record entries summed over
its buckets, and every bucket equals the partial records of exactly the
source companies carrying that key, in source iteration order, so duplicate
keys are appended and never deduplicated or overwritten. -/
theorem createHashIndexes_count_and_order (companyData : List Company) :
    sumLen (createHashIndexes companyData).1 = companyData.length
    ∧ sumLen (createHashIndexes companyData).2.1 = companyData.length
    ∧ sumLen (createHashIndexes companyData).2.2 = companyData.length
    ∧ (∀ k, bucketOf (createHashIndexes companyData).1 k =
        (companyData.filter fun c => pyLower c.ticker == k).map
          (fun c => ⟨some c.title, none, some c.cik_str⟩))
    ∧ (∀ k, bucketOf (createHashIndexes companyData).2.1 k =
        (companyData.filter fun c => pyLower c.title == k).map
          (fun c => ⟨none, some c.ticker, some c.cik_str⟩))
    ∧ (∀ k, bucketOf (createHashIndexes companyData).2.2 k =
        (companyData.filter fun c => toString c.cik_str == k).map
          (fun c => ⟨some c.title, some c.ticker, none⟩)) := by
  obtain ⟨h1, h2, h3, h4, h5, h6⟩ := createHashIndexesAux_spec companyData [] [] []
  have hs : sumLen ([] : Index) = 0 := rfl
  have hb : ∀ k, bucketOf ([] : Index) k = [] := fun _ => rfl
  refine ⟨?_, ?_, ?_, fun k => ?_, fun k => ?_, fun k => ?_⟩
  · simpa [createHashIndexes, hs] using h1
  · simpa [createHashIndexes, hs] using h2
  · simpa [createHashIndexes, hs] using h3
  · simpa [createHashIndexes, hb] using h4 k
  · simpa [createHashIndexes, hb] using h5 k
  · simpa [createHashIndexes, hb] using h6 k

theorem dictGet_createHashIndexesAux_cik_none :
    ∀ (data : List Company) (tI tiI cI : Index) (k : String),
      dictGet (createHashIndexesAux tI tiI cI data).2.2 k = none ↔
        dictGet cI k = none ∧ ∀ c ∈ data, toString c.cik_str ≠ k := by
  intro data
  induction data with
  | nil => intro _ _ _ k; simp [createHashIndexesAux]
  | cons c rest ih =>
    intro tI tiI cI k
    simp only [createHashIndexesAux]
    rw [ih, dictGet_setdefaultAppend_eq_none]
    simp only [List.forall_mem_cons]
    tauto

/-- C10: a record of an index built by createHashIndexes is found by
searchByCik only under the exact unpadded string of its stored cik_str, so
the lookup is none exactly when no source record renders to the queried
string; in particular the zero-padded query 0000320193 misses the stored
record with cik_str 320193 while the unpadded query finds it. -/
theorem searchByCik_exact_unpadded (companyData : List Company) (q : String) :
    (searchByCik (createHashIndexes companyData).2.2 q = none ↔
      ∀ c ∈ companyData, toString c.cik_str ≠ q)
    ∧ searchByCik (createHashIndexes [⟨320193, "AAPL", "Apple Inc."⟩]).2.2
        "0000320193" = none
    ∧ searchByCik (createHashIndexes [⟨320193, "AAPL", "Apple Inc."⟩]).2.2
        "320193" = some [⟨some "Apple Inc.", some "AAPL", none⟩] := by
  refine ⟨?_, by decide, by decide⟩
  have h := dictGet_createHashIndexesAux_cik_none companyData [] [] [] q
  simpa [searchByCik, createHashIndexes, dictGet] using h

theorem isPrefixOf_self (l : List Char) : l.isPrefixOf l = true := by
  induction l with
  | nil => rfl
  | cons c t ih => simp [List.isPrefixOf, ih]

theorem containsSub_self (l : List Char) : containsSub l l = true := by
  cases l with
  | nil => rfl
  | cons c t => simp [containsSub, isPrefixOf_self]

theorem mem_titleFold (q : String → Bool) :
    ∀ (idx : Index) (acc : List SRec) (r : SRec),
      (r ∈ idx.foldl (fun acc kv => if q kv.1 then acc ++ kv.2 else acc) acc ↔
        r ∈ acc ∨ ∃ kv ∈ idx, q kv.1 = true ∧ r ∈ kv.2) := by
  intro idx
  induction idx with
  | nil => simp
  | cons hd tl ih =>
    intro acc r
    obtain ⟨k1, es⟩ := hd
    by_cases h : q k1
    · simp only [List.foldl_cons, if_pos h, ih, List.mem_append, List.mem_cons]
      constructor
      · rintro ((ha | he) | ⟨kv, hkv, hq, hr⟩)
        · exact Or.inl ha
        · exact Or.inr ⟨(k1, es), Or.inl rfl, h, he⟩
        · exact Or.inr ⟨kv, Or.inr hkv, hq, hr⟩
      · rintro (ha | ⟨kv, (hkv | hkv), hq, hr⟩)
        · exact Or.inl (Or.inl ha)
        · subst hkv; exact Or.inl (Or.inr hr)
        · exact Or.inr ⟨kv, hkv, hq, hr⟩
    · simp only [List.foldl_cons, if_neg h, ih, List.mem_cons]
      constructor
      · rintro (ha | ⟨kv, hkv, hq, hr⟩)
        · exact Or.inl ha
        · exact Or.inr ⟨kv, Or.inr hkv, hq, hr⟩
      · rintro (ha | ⟨kv, (hkv | hkv), hq, hr⟩)
        · exact Or.inl ha
        · subst hkv; exact absurd hq (by simpa using h)
        · exact Or.inr ⟨kv, hkv, hq, hr⟩

/-- C9: for every title index and every non-empty query, every record that
the exact title search returns is also returned by the substring title
search with the same query: the partial search result is a superset of the
exact one. -/
theorem searchByTitle_partial_superset (titleIndex : Index) (q : String)
    (hq : q ≠ "") (r : SRec)
    (hr : r ∈ (searchByTitle titleIndex q false).getD []) :
    r ∈ (searchByTitle titleIndex q true).getD [] := by
  unfold searchByTitle at hr ⊢
  by_cases hE :
      titleIndex.foldl
        (fun acc kv => if titleMatches false q kv.1 then acc ++ kv.2 else acc) [] = []
  · simp [hE] at hr
  · simp only [if_neg hE, Option.getD_some] at hr
    have hmem := (mem_titleFold (titleMatches false q) titleIndex [] r).mp hr
    simp only [List.not_mem_nil, false_or] at hmem
    obtain ⟨kv, hkv, hqm, hrkv⟩ := hmem
    have heq : q = pyLower kv.1 := by
      simpa [titleMatches] using hqm
    have hpm : titleMatches true q kv.1 = true := by
      simp [titleMatches, heq, containsSub_self]
    have hP : r ∈ titleIndex.foldl
        (fun acc kv => if titleMatches true q kv.1 then acc ++ kv.2 else acc) [] := by
      exact (mem_titleFold (titleMatches true q) titleIndex [] r).mpr
        (Or.inr ⟨kv, hkv, hpm, hrkv⟩)
    have hPne : titleIndex.foldl
        (fun acc kv => if titleMatches true q kv.1 then acc ++ kv.2 else acc) [] ≠ [] :=
      List.ne_nil_of_mem hP
    simpa [if_neg hPne] using hP

/-- Witness for C9 at a concrete index: the record stored under the exact
title apple inc. is found by both the exact and the substring search. -/
theorem searchByTitle_partial_superset_witness :
    (("apple inc." : String) ≠ "" ∧
      (⟨none, some "AAPL", some 320193⟩ : SRec) ∈
        (searchByTitle [("apple inc.", [⟨none, some "AAPL", some 320193⟩])]
          "apple inc." false).getD []) ∧
    (⟨none, some "AAPL", some 320193⟩ : SRec) ∈
      (searchByTitle [("apple inc.", [⟨none, some "AAPL", some 320193⟩])]
        "apple inc." true).getD [] :=
  ⟨⟨by decide, by decide⟩,
    searchByTitle_partial_superset
      [("apple inc.", [⟨none, some "AAPL", some 320193⟩])] "apple inc."
      (by decide) ⟨none, some "AAPL", some 320193⟩ (by decide)⟩

theorem string_isEmpty_false_iff (s : String) : s.isEmpty = false ↔ s ≠ "" := by
  rw [Bool.eq_false_iff]
  exact not_congr (String.isEmpty_iff s)

theorem pyIsDigit_iff (s : String) :
    pyIsDigit s = true ↔ s ≠ "" ∧ ∀ c ∈ s.data, c.isDigit = true := by
  simp [pyIsDigit, string_isEmpty_false_iff, List.all_eq_true]

theorem pyIsAlnum_iff (s : String) :
    pyIsAlnum s = true ↔ s ≠ "" ∧ ∀ c ∈ s.data, c.isAlphanum = true := by
  simp [pyIsAlnum, string_isEmpty_false_iff, List.all_eq_true]

theorem pyIsAlpha_imp_pyIsAlnum (s : String) :
    pyIsAlpha s = true → pyIsAlnum s = true := by
  simp only [pyIsAlpha, pyIsAlnum, Bool.and_eq_true, List.all_eq_true]
  rintro ⟨h1, h2⟩
  exact ⟨h1, fun c hc => by simp [Char.isAlphanum, h2 c hc]⟩

/-- C5: searchCompany classifies every raw input by its characters: all-digit
input is looked up exactly in the CIK index; alphanumeric input is looked up
exactly, case-insensitively, in the ticker index, falling back to a substring
title search with the same lowercased input when the ticker lookup comes back
falsy; and any other input goes directly to the substring title search. -/
theorem searchCompany_classification (tickerIndex titleIndex cikIndex : Index)
    (input : String) :
    searchCompanyResult tickerIndex titleIndex cikIndex input =
      if input ≠ "" ∧ ∀ c ∈ input.data, c.isDigit = true then
        searchByCik cikIndex input
      else if input ≠ "" ∧ ∀ c ∈ input.data, c.isAlphanum = true then
        (if isFalsy (searchByTicker tickerIndex (pyLower input)) then
          searchByTitle titleIndex (pyLower input) true
        else searchByTicker tickerIndex (pyLower input))
      else searchByTitle titleIndex (pyLower input) true := by
  by_cases hd : input ≠ "" ∧ ∀ c ∈ input.data, c.isDigit = true
  · have hD : pyIsDigit input = true := (pyIsDigit_iff input).mpr hd
    unfold searchCompanyResult
    rw [if_pos hd, if_pos (by simp [hD])]
  · have hDF : ¬ pyIsDigit input = true := fun h => hd ((pyIsDigit_iff input).mp h)
    by_cases ha : input ≠ "" ∧ ∀ c ∈ input.data, c.isAlphanum = true
    · have hA : pyIsAlnum input = true := (pyIsAlnum_iff input).mpr ha
      unfold searchCompanyResult
      rw [if_neg hd, if_pos ha, if_neg (by simpa using hDF), if_pos (by simp [hA])]
    · have hAF : ¬ pyIsAlnum input = true := fun h => ha ((pyIsAlnum_iff input).mp h)
      have haF : ¬ pyIsAlpha input = true := fun h => hAF (pyIsAlpha_imp_pyIsAlnum input h)
      unfold searchCompanyResult
      rw [if_neg hd, if_neg ha, if_neg (by simpa using hDF),
        if_neg (by simp only [Bool.or_eq_true]; rintro (h | h) <;> [exact haF h; exact hAF h])]

/-- C1: at a two-candidate result, both an out-of-range selection and a
non-integer selection reach the retry call that passes two arguments to the
five-parameter handleSearchResults and hence raise TypeError, which the
surrounding except ValueError clause does not catch, so the error escalates
to the caller; a valid selection returns the chosen candidate. -/
theorem handleSearchResults_invalid_selection_typeError :
    handleSearchResultsSelect ["Apple Inc.", "Broadcom Inc."] ["AAPL", "AVGO"]
        ["320193", "1730168"] (some 3) = Except.error PyErr.typeError
    ∧ handleSearchResultsSelect ["Apple Inc.", "Broadcom Inc."] ["AAPL", "AVGO"]
        ["320193", "1730168"] none = Except.error PyErr.typeError
    ∧ handleSearchResultsSelect ["Apple Inc.", "Broadcom Inc."] ["AAPL", "AVGO"]
        ["320193", "1730168"] (some 1) = Except.ok ("Apple Inc.", "AAPL", "320193") :=
  ⟨rfl, rfl, rfl⟩

/-- C3: the first EdgarClient construction fixes the stored rate limiter; a
later construction call with any rate limiter argument returns the same
first instance, leaves its rateLimiter field and the stored singleton
unchanged, and in general construction over an existing instance returns
that instance untouched. -/
theorem edgarClient_singleton (rl1 rl2 : Option RateLimiter) :
    (EdgarClient.new (EdgarClient.new none rl1).2 rl2).1 = (EdgarClient.new none rl1).1
    ∧ (EdgarClient.new (EdgarClient.new none rl1).2 rl2).1.rateLimiter = rl1
    ∧ (EdgarClient.new (EdgarClient.new none rl1).2 rl2).2 = (EdgarClient.new none rl1).2
    ∧ ∀ (inst : EdgarClient) (rl3 : Option RateLimiter),
        EdgarClient.new (some inst) rl3 = (inst, some inst) :=
  ⟨rfl, rfl, rfl, fun _ _ => rfl⟩

/-- C6: evaluated at its own docstring example, parseSearchResults drops
fully-populated records, because the if and elif chain appends only when a
field is missing: the two-record example returns three empty tuples instead
of the documented titles, tickers and ciks, and the one-record variant
raises IndexError; a record missing exactly one field does get the user
input substituted. -/
theorem parseSearchResults_full_record_drop :
    parseSearchResults
        (some [⟨some "Newbury Street II Acquisition Corp", some "NTWOU", some 2028027⟩,
          ⟨some "XYZ Corporation", some "XYZ", some 2028030⟩]) "NTWOU"
      = Except.ok (some (ParseOut.multi [] [] []))
    ∧ parseSearchResults
        (some [⟨some "Newbury Street II Acquisition Corp", some "NTWOU", some 2028027⟩])
        "NTWOU" = Except.error PyErr.indexError
    ∧ parseSearchResults (some [⟨none, some "AAPL", some 320193⟩]) "apple"
      = Except.ok (some (ParseOut.single "apple" "AAPL" "320193")) :=
  ⟨rfl, rfl, rfl⟩

/-- C8: get_data returns none for every response whose status code is not
200 and the parsed JSON body for every response with status 200, whatever
client it runs on. -/
theorem get_data_status {α : Type} (client : EdgarClient) (response : HttpResponse α) :
    (response.status_code ≠ 200 → EdgarClient.get_data client response = none)
    ∧ (response.status_code = 200 →
        EdgarClient.get_data client response = some response.jsonBody) := by
  constructor <;> intro h <;> simp [EdgarClient.get_data, h]

/-- Witness for C8 at concrete responses with status 404 and status 200. -/
theorem get_data_status_witness :
    ((404 : Nat) ≠ 200 ∧
      EdgarClient.get_data (EdgarClient.mk none) (HttpResponse.mk 404 (7 : Nat)) = none)
    ∧ ((200 : Nat) = 200 ∧
      EdgarClient.get_data (EdgarClient.mk none) (HttpResponse.mk 200 (7 : Nat)) = some 7) :=
  ⟨⟨by decide,
      (get_data_status (EdgarClient.mk none) (HttpResponse.mk 404 7)).1 (by decide)⟩,
    ⟨rfl, (get_data_status (EdgarClient.mk none) (HttpResponse.mk 200 7)).2 rfl⟩⟩

/-- C7 counterexample: on a row with fp and frame both empty, the code sets
fp to the lowercase sentinel and not to the uppercase sentinel that the
claim states. -/
theorem updateFyAndFrameCols_case1_counterexample :
    (updateFyAndFrameCols
        [⟨"2020-12-31", "100", "acc-1", "2020", none, "10-K", "2021-01-01", none⟩]).map
        (fun r => r.fp) = [some "N/a"]
    ∧ (updateFyAndFrameCols
        [⟨"2020-12-31", "100", "acc-1", "2020", none, "10-K", "2021-01-01", none⟩]).map
        (fun r => r.fp) ≠ [some "N/A"] :=
  ⟨by decide, by decide⟩

theorem correctRow_eq_specCorrectRow (row : FactRow) :
    correctRow row = specCorrectRow row := by
  unfold correctRow specCorrectRow
  split_ifs <;> first | rfl | tauto

/-- C7 amended: updateFyAndFrameCols corrects each row by exactly the
four-case rule table, with the case-one sentinel being the lowercase N/a
rather than N/A: fp empty or FY with empty frame gives fp N/a and frame CY
fy; empty frame with valid non-FY fp gives frame CY fy fp I; fp empty or FY
with a length-6 frame gives fp N/A; fp empty or FY with a frame of length
at least 9 gives fp the characters 6 to 8 of the frame; all other rows are
left entirely unmodified. -/
theorem updateFyAndFrameCols_rule_table (rows : List FactRow) :
    updateFyAndFrameCols rows = rows.map specCorrectRow := by
  induction rows with
  | nil => rfl
  | cons r t ih =>
    simp only [updateFyAndFrameCols, List.map_cons] at ih ⊢
    rw [correctRow_eq_specCorrectRow, ih]

theorem runAcquires_window_bound :
    ∀ (ts : List ℚ) (s : RateLimiter),
      (∀ t ∈ ts, t - s.startTime ≤ s.period) →
      (s.runAcquires ts).2 ≤ s.maxCalls - s.calls := by
  intro ts
  induction ts with
  | nil => intro s _; simp [RateLimiter.runAcquires]
  | cons t ts ih =>
    intro s h
    have ht : t - s.startTime ≤ s.period := h t (List.mem_cons_self t ts)
    have hnr : ¬ s.period < t - s.startTime := not_lt.mpr ht
    by_cases hc : s.calls < s.maxCalls
    · have hstep : s.waitStep t
          = some (RateLimiter.mk s.maxCalls s.period (s.calls + 1) s.startTime) := by
        simp [RateLimiter.waitStep, hnr, hc]
      have hrec := ih (RateLimiter.mk s.maxCalls s.period (s.calls + 1) s.startTime)
        (fun u hu => h u (List.mem_cons_of_mem t hu))
      simp only [RateLimiter.runAcquires, hstep] at hrec ⊢
      omega
    · have hstep : s.waitStep t = none := by
        simp [RateLimiter.waitStep, hnr, hc]
      have hrec := ih s (fun u hu => h u (List.mem_cons_of_mem t hu))
      simp only [RateLimiter.runAcquires, hstep]
      exact hrec

theorem runAcquires_replicate_fill :
    ∀ (n : Nat) (s : RateLimiter), 0 ≤ s.period → s.calls + n ≤ s.maxCalls →
      s.runAcquires (List.replicate n s.startTime)
        = (RateLimiter.mk s.maxCalls s.period (s.calls + n) s.startTime, n) := by
  intro n
  induction n with
  | zero => intro s _ _; simp [RateLimiter.runAcquires]
  | succ n ih =>
    intro s hp hc
    have hnr0 : ¬ s.period < (0 : ℚ) := not_lt.mpr hp
    have hlt : s.calls < s.maxCalls := by omega
    have hstep : s.waitStep s.startTime
        = some (RateLimiter.mk s.maxCalls s.period (s.calls + 1) s.startTime) := by
      simp [RateLimiter.waitStep, hnr0, hlt]
    have hrec := ih (RateLimiter.mk s.maxCalls s.period (s.calls + 1) s.startTime)
      (by simpa using hp) (by simp; omega)
    simp only at hrec
    rw [List.replicate_succ]
    simp only [RateLimiter.runAcquires, hstep, hrec]
    have harith : s.calls + 1 + n = s.calls + (n + 1) := by omega
    rw [harith]

/-- C2: from a window boundary, any schedule of wait-loop polls whose times
all lie within one period of the window start completes at most maxCalls
calls; in particular a burst of maxCalls calls at the start time all
complete immediately, the next call blocks at every time within the period,
and at any time strictly past the period it completes with the counter reset
to zero, then counted to one, and the window restarted at that time. -/
theorem rateLimiter_window_and_burst (m : Nat) (p t0 : ℚ) (hm : 0 < m) (hp : 0 ≤ p) :
    (∀ ts : List ℚ, (∀ t ∈ ts, t - t0 ≤ p) →
        ((RateLimiter.init m p t0).runAcquires ts).2 ≤ m)
    ∧ ((RateLimiter.init m p t0).runAcquires (List.replicate m t0)).2 = m
    ∧ (∀ t : ℚ, t - t0 ≤ p →
        ((RateLimiter.init m p t0).runAcquires (List.replicate m t0)).1.waitStep t = none)
    ∧ (∀ t : ℚ, p < t - t0 →
        ((RateLimiter.init m p t0).runAcquires (List.replicate m t0)).1.waitStep t
          = some (RateLimiter.mk m p 1 t)) := by
  have hfill := runAcquires_replicate_fill m (RateLimiter.init m p t0)
    (by simpa [RateLimiter.init] using hp) (by simp [RateLimiter.init])
  simp only [RateLimiter.init, Nat.zero_add] at hfill
  refine ⟨?_, ?_, ?_, ?_⟩
  · intro ts h
    have hb := runAcquires_window_bound ts (RateLimiter.init m p t0)
      (by simpa [RateLimiter.init] using h)
    simpa [RateLimiter.init] using hb
  · simp only [RateLimiter.init, hfill]
  · intro t ht
    simp only [RateLimiter.init, hfill]
    simp [RateLimiter.waitStep, not_lt.mpr ht]
  · intro t ht
    simp only [RateLimiter.init, hfill]
    simp [RateLimiter.waitStep, ht, hm]

/-- Witness for C2 at maxCalls one, period zero and start time zero. -/
theorem rateLimiter_window_and_burst_witness :
    (0 < 1 ∧ (0 : ℚ) ≤ 0) ∧
      ((RateLimiter.init 1 0 0).runAcquires (List.replicate 1 0)).2 = 1 :=
  ⟨⟨Nat.one_pos, le_refl 0⟩,
    (rateLimiter_window_and_burst 1 0 0 Nat.one_pos (le_refl 0)).2.1⟩

end SecData
